import Mathlib

/-!
Verification of the nmap greppable-output parser (src/main.py).

The program is a four-stage line pipeline over Python strings.  We embed it
shallowly: Python strings become `List Char`, Python dicts (which preserve
insertion order) become association lists, and fallible steps (the
`int(...)` conversion, the `line.split()[1]` index access, the fatal
missing-marker check) are threaded through `Option` / `Except`.  Every
definition is translated from the source; the one definition translated
from a specification sentence instead is `_get_ports_info_lit`, clearly
marked below.
-/

/-- The set of characters Python `str.split()` (no argument) treats as
whitespace, restricted to the ASCII range actually relevant here
(space, tab, newline, carriage return, vertical tab, form feed). -/
def pyIsSpace (c : Char) : Bool :=
  c = ' ' || c = '\t' || c = '\n' || c = '\r' || c = '\x0b' || c = '\x0c'

/-- Bool test that `n` is a leading run of `h` (Python `str.startswith`). -/
def isPre : List Char → List Char → Bool
  | [], _ => true
  | _ :: _, [] => false
  | a :: as, b :: bs => if a = b then isPre as bs else false

def pyInAux : List Char → List Char → Bool
  | n, [] => isPre n []
  | n, c :: cs => isPre n (c :: cs) || pyInAux n cs

/-- Python substring containment `needle in hay`. -/
def pyIn (needle hay : List Char) : Bool := pyInAux needle hay

/-- Python `s.split(sep)` for a one-character separator `sep`:
splits at every occurrence of `sep`, keeping empty pieces. -/
def splitChAux (sep : Char) : List Char → List Char → List (List Char)
  | [], acc => [acc.reverse]
  | c :: cs, acc =>
    if c = sep then acc.reverse :: splitChAux sep cs []
    else splitChAux sep cs (c :: acc)

def splitCh (sep : Char) (l : List Char) : List (List Char) := splitChAux sep l []

/-- Python `s.split(", ")`: splits at every (leftmost-first, non-overlapping)
occurrence of the two-character separator comma-space, keeping empty pieces. -/
def splitCSAux : List Char → List Char → List (List Char)
  | [], acc => [acc.reverse]
  | ',' :: ' ' :: cs, acc => acc.reverse :: splitCSAux cs []
  | c :: cs, acc => splitCSAux cs (c :: acc)

def splitCS (l : List Char) : List (List Char) := splitCSAux l []

/-- Python `str.split()` with no argument: maximal runs of
non-whitespace characters; no empty tokens. -/
def splitWsAux : List Char → List Char → List (List Char)
  | [], acc => if acc.isEmpty then [] else [acc.reverse]
  | c :: cs, acc =>
    if pyIsSpace c then
      if acc.isEmpty then splitWsAux cs []
      else acc.reverse :: splitWsAux cs []
    else splitWsAux cs (c :: acc)

def splitWs (l : List Char) : List (List Char) := splitWsAux l []

/-- Python `s.strip(chars)`: removes leading and trailing characters drawn
from the character set `chars` (not the literal string `chars`). -/
def pyStrip (chars : List Char) (s : List Char) : List Char :=
  ((s.dropWhile (chars.contains ·)).reverse.dropWhile (chars.contains ·)).reverse

/-- Python `file.readlines()` on the text of a file: the pieces ending
after each newline character, keeping the newline; a last piece without a
newline is kept as-is, and an empty trailing piece is not produced. -/
def readlinesAux : List Char → List Char → List (List Char)
  | [], acc => if acc.isEmpty then [] else [acc.reverse]
  | c :: cs, acc =>
    if c = '\n' then (acc.reverse ++ ['\n']) :: readlinesAux cs []
    else readlinesAux cs (c :: acc)

def readlines (text : List Char) : List (List Char) := readlinesAux text []

/-- Value of a decimal digit string (most significant digit first). -/
def digitsVal (s : List Char) : Nat :=
  s.foldl (fun n c => n * 10 + (c.toNat - '0'.toNat)) 0

/-- Python `int(s)` restricted to the shapes that occur here: succeeds
exactly on non-empty strings of decimal digits (the regex capture group
`[0-9]+` only ever produces such strings), fails otherwise. -/
def pyInt (s : List Char) : Option Nat :=
  if !s.isEmpty && s.all Char.isDigit then some (digitsVal s) else none

/-- `_HOST_PREFIX = "Host: "` from the source. -/
def HOST_PREFIX : List Char := ['H', 'o', 's', 't', ':', ' ']

/-- `_PORTS_PREFIX = "Ports: "` from the source. -/
def PORTS_PREFIX : List Char := ['P', 'o', 'r', 't', 's', ':', ' ']

theorem HOST_PREFIX_eq : HOST_PREFIX = "Host: ".toList := rfl

theorem PORTS_PREFIX_eq : PORTS_PREFIX = "Ports: ".toList := rfl

/-- The seven named capture groups of `_PORT_INFO_REGEX`. -/
structure MatchGroups where
  port : List Char
  state : List Char
  protocol : List Char
  owner : List Char
  service : List Char
  sun_rpc_info : List Char
  version_info : List Char
deriving DecidableEq

/-- `re.match(_PORT_INFO_REGEX, s)` for the pattern
`([0-9]+)/([^/]*)/([^/]*)/([^/]*)/([^/]*)/([^/]*)/([^/]*)/[^/]*,?`.
`re.match` anchors at the start only, and each `[^/]*` is a greedy run of
non-slash characters, so a match exists exactly when the string has at
least seven slashes and the text before the first slash is a non-empty
run of decimal digits; the groups are the first seven slash-separated
fields.  The trailing `[^/]*,?` always matches (possibly emptily) and
captures nothing. -/
def matchPortInfo (s : List Char) : Option MatchGroups :=
  match splitCh '/' s with
  | f0 :: f1 :: f2 :: f3 :: f4 :: f5 :: f6 :: _ :: _ =>
    if !f0.isEmpty && f0.all Char.isDigit then
      some ⟨f0, f1, f2, f3, f4, f5, f6⟩
    else none
  | _ => none

/-- One extracted `(port, state, protocol, service)` tuple. -/
structure PortRecord where
  port : Nat
  state : List Char
  protocol : List Char
  service : List Char
deriving DecidableEq

/-- The body of the extraction loop after a successful pattern match:
`port = int(...)` followed by tuple construction.  The `int` conversion is
the fallible step; its failure is uncaught in the source and therefore
surfaces as an error. -/
def convertMatch (g : MatchGroups) : Except (List Char) PortRecord :=
  match pyInt g.port with
  | none => Except.error ("invalid literal for int() with base 10: ".toList ++ g.port)
  | some p => Except.ok ⟨p, g.state, g.protocol, g.service⟩

/-- Processing of one comma-space separated port-info fragment: a fragment
that does not match the pattern is skipped (`continue`), a matching one is
converted. -/
def processFragment (frag : List Char) : Except (List Char) (List PortRecord) :=
  match matchPortInfo frag with
  | none => Except.ok []
  | some g =>
    match convertMatch g with
    | Except.error e => Except.error e
    | Except.ok r => Except.ok [r]

def processFragments : List (List Char) → Except (List Char) (List PortRecord)
  | [] => Except.ok []
  | f :: fs =>
    match processFragment f with
    | Except.error e => Except.error e
    | Except.ok rs =>
      match processFragments fs with
      | Except.error e => Except.error e
      | Except.ok rest => Except.ok (rs ++ rest)

/-- The tab-separated segments of the line that start with `"Ports: "`
(the loop skips the others with `continue`). -/
def portsSegments (ports_line : List Char) : List (List Char) :=
  (splitCh '\t' ports_line).filter (fun part => isPre PORTS_PREFIX part)

/-- The fragments contributed by one qualifying segment:
`part.strip("Ports: ").split(", ")`.  Note that Python `strip` treats its
argument as a character set, stripping both ends. -/
def fragmentsOfSegment (part : List Char) : List (List Char) :=
  splitCS (pyStrip PORTS_PREFIX part)

def fragmentsOfLine (ports_line : List Char) : List (List Char) :=
  (portsSegments ports_line).flatMap fragmentsOfSegment

/-- `_get_ports_info` from the source. -/
def _get_ports_info (ports_line : List Char) : Except (List Char) (List PortRecord) :=
  processFragments (fragmentsOfLine ports_line)

/-- `_get_host` from the source: `host_line.split()[1]`.  The index access
is fallible (IndexError), modelled by `Option`. -/
def _get_host (host_line : List Char) : Option (List Char) :=
  (splitWs host_line)[1]?

/-- One step of the `_build_service_map` loop: append `p` to the list held
by the first entry with key `s`, or append a fresh entry `(s, [p])` at the
end when the key is absent — exactly the insertion-order behaviour of a
Python dict. -/
def updateEntry : List (List Char × List Nat) → List Char → Nat → List (List Char × List Nat)
  | [], s, p => [(s, [p])]
  | (k, ps) :: rest, s, p =>
    if k = s then (k, ps ++ [p]) :: rest
    else (k, ps) :: updateEntry rest s p

/-- `_build_service_map` from the source. -/
def _build_service_map (ports_info : List PortRecord) : List (List Char × List Nat) :=
  ports_info.foldl (fun m r => updateEntry m r.service r.port) []

/-- `_get_ports_for_service_substr` from the source: extend the result
with the ports of every service whose name contains the substring,
iterating the map in insertion order. -/
def _get_ports_for_service_substr (service_substr : List Char)
    (service_map : List (List Char × List Nat)) : List Nat :=
  service_map.foldl (fun acc e => if pyIn service_substr e.1 then acc ++ e.2 else acc) []

/-- `_build_output` from the source: one string per port, formatted as
host colon port with the port in decimal. -/
def _build_output (host : List Char) (ports : List Nat) : List (List Char) :=
  ports.map (fun p => host ++ ':' :: (Nat.repr p).toList)

/-- `_get_hosts_with_ports` from the source, with the process-wide
`SERVICE_SUBSTR` flag passed explicitly. -/
def _get_hosts_with_ports (service_substr : List Char) :
    List (List Char) → Except (List Char) (List (List Char))
  | [] => Except.ok []
  | line :: rest =>
    match _get_host line with
    | none => Except.error "IndexError: list index out of range".toList
    | some host =>
      match _get_ports_info line with
      | Except.error e => Except.error e
      | Except.ok ports_info =>
        match _get_hosts_with_ports service_substr rest with
        | Except.error e => Except.error e
        | Except.ok tail =>
          Except.ok (_build_output host
            (_get_ports_for_service_substr service_substr (_build_service_map ports_info)) ++ tail)

/-- The fatal message of `_parse_and_print`:
No line with (the ports marker) found in input file (the path). -/
def noLineMsg (path : List Char) : List Char :=
  "No line with \x27".toList ++ PORTS_PREFIX ++ "\x27 found in input file \x27".toList
    ++ path ++ "\x27".toList

/-- `_parse_and_print` from the source, with the input text read from the
file, the `SERVICE_SUBSTR` flag and the `NMAP_OUT` path passed explicitly.
It selects the lines containing both markers, terminates fatally (error)
when there is none, and otherwise returns the printed records in order.
The empty-result warning case is an ordinary successful run. -/
def _parse_and_print (text service_substr path : List Char) :
    Except (List Char) (List (List Char)) :=
  let host_ports_lines :=
    (readlines text).filter (fun line => pyIn HOST_PREFIX line && pyIn PORTS_PREFIX line)
  if host_ports_lines.isEmpty then Except.error (noLineMsg path)
  else _get_hosts_with_ports service_substr host_ports_lines

/-- Modelled from the claim being checked (C8), not from the source: the
variant of `_get_ports_info` that removes exactly the literal leading
prefix `"Ports: "` from each qualifying segment instead of calling
Python `strip`. -/
def fragmentsOfSegmentLit (part : List Char) : List (List Char) :=
  splitCS (part.drop PORTS_PREFIX.length)

def _get_ports_info_lit (ports_line : List Char) : Except (List Char) (List PortRecord) :=
  processFragments ((portsSegments ports_line).flatMap fragmentsOfSegmentLit)

theorem isPre_iff (n h : List Char) : isPre n h = true ↔ ∃ t, h = n ++ t := by
  induction n generalizing h with
  | nil => simp [isPre]
  | cons a as ih =>
    cases h with
    | nil => simp [isPre]
    | cons b bs =>
      by_cases hab : a = b
      · subst hab
        simp [isPre, ih]
      · simp only [isPre, if_neg hab, Bool.false_eq_true, false_iff]
        rintro ⟨t, ht⟩
        injection ht with h1 h2
        exact hab h1.symm

theorem pyIn_iff (n h : List Char) : pyIn n h = true ↔ ∃ s t, h = s ++ n ++ t := by
  induction h with
  | nil =>
    simp only [pyIn, pyInAux, isPre_iff]
    constructor
    · rintro ⟨t, ht⟩
      exact ⟨[], t, by simp [ht]⟩
    · rintro ⟨s, t, ht⟩
      rcases List.append_eq_nil.mp ht.symm with ⟨h1, h2⟩
      rcases List.append_eq_nil.mp h1 with ⟨h3, h4⟩
      exact ⟨t, by simp [h4, ht.symm, h2]⟩
  | cons c cs ih =>
    simp only [pyIn, pyInAux, Bool.or_eq_true] at ih ⊢
    constructor
    · rintro (hpre | hrec)
      · rcases (isPre_iff _ _).mp hpre with ⟨t, ht⟩
        exact ⟨[], t, by simp [ht]⟩
      · rcases ih.mp hrec with ⟨s, t, ht⟩
        exact ⟨c :: s, t, by simp [ht]⟩
    · rintro ⟨s, t, ht⟩
      cases s with
      | nil =>
        exact Or.inl ((isPre_iff _ _).mpr ⟨t, by simpa using ht⟩)
      | cons d s2 =>
        injection ht with h1 h2
        exact Or.inr (ih.mpr ⟨s2, t, by simpa using h2⟩)

theorem pyIn_nil (h : List Char) : pyIn [] h = true :=
  (pyIn_iff [] h).mpr ⟨[], h, rfl⟩

theorem gpfss_foldl (substr : List Char) (m : List (List Char × List Nat)) :
    ∀ acc, m.foldl (fun acc e => if pyIn substr e.1 then acc ++ e.2 else acc) acc =
      acc ++ m.flatMap (fun e => if pyIn substr e.1 then e.2 else []) := by
  induction m with
  | nil => intro acc; simp
  | cons e m ih =>
    intro acc
    by_cases hp : pyIn substr e.1 = true
    · simp [List.foldl_cons, hp, ih, List.append_assoc]
    · simp [List.foldl_cons, hp, ih]

/-- Claim C3: applying the substring filter with the empty substring
(the empty Python string) returns the concatenation of all port lists,
iterating services in insertion order and preserving each list —
a select-all. -/
theorem c3_empty_substring_selects_all (m : List (List Char × List Nat)) :
    _get_ports_for_service_substr [] m = (m.map (fun e => e.2)).flatten := by
  unfold _get_ports_for_service_substr
  rw [gpfss_foldl]
  simp [pyIn_nil]
  induction m with
  | nil => simp
  | cons e m ih => simp [ih]

/-- Claim C7: the pipeline is deterministic: identical input text,
substring and path give identical output. -/
theorem c7_pipeline_deterministic (t1 t2 s1 s2 p1 p2 : List Char)
    (ht : t1 = t2) (hs : s1 = s2) (hp : p1 = p2) :
    _parse_and_print t1 s1 p1 = _parse_and_print t2 s2 p2 := by
  rw [ht, hs, hp]

theorem c7_witness :
    ("Host: h Ports: 1/a/b/c/d/e/f/\n".toList = "Host: h Ports: 1/a/b/c/d/e/f/\n".toList) ∧
    ("d".toList = "d".toList) ∧ ("p".toList = "p".toList) ∧
    _parse_and_print "Host: h Ports: 1/a/b/c/d/e/f/\n".toList "d".toList "p".toList =
      _parse_and_print "Host: h Ports: 1/a/b/c/d/e/f/\n".toList "d".toList "p".toList :=
  ⟨rfl, rfl, rfl, c7_pipeline_deterministic _ _ _ _ _ _ rfl rfl rfl⟩

/-- The end-to-end example line of the specification. -/
def c1_line : List Char :=
  "Host: 10.0.0.5 ()\tPorts: 80/open/tcp//http///, 22/open/tcp//ssh///\tIgnored: ...".toList

/-- Claim C1 is false on the code: with service substring h the pipeline
produces two records, because h is also a substring of the service name
ssh; the output is not the single record 10.0.0.5:80. -/
theorem c1_counterexample :
    _parse_and_print c1_line "h".toList "scan.gnmap".toList =
      Except.ok ["10.0.0.5:80".toList, "10.0.0.5:22".toList] ∧
    (["10.0.0.5:80".toList, "10.0.0.5:22".toList] : List (List Char)) ≠
      ["10.0.0.5:80".toList] :=
  ⟨rfl, by decide⟩

/-- Claim C1 amended: for that input line with service substring h the
full pipeline produces exactly the two records 10.0.0.5:80 and
10.0.0.5:22, in that order, since h occurs in both http and ssh. -/
theorem c1_amended :
    _parse_and_print c1_line "h".toList "scan.gnmap".toList =
      Except.ok ["10.0.0.5:80".toList, "10.0.0.5:22".toList] := rfl

/-- Claim C4 is false on the code: for an input whose only line contains
the ports marker but not the host marker, no line qualifies and the run
terminates fatally, yet the error message names the marker that is
present (the ports marker) and not the marker that is missing (the host
marker): the missing marker is not named. -/
theorem c4_counterexample :
    ((readlines "Ports: 80/open/tcp//http///".toList).all
      (fun l => !pyIn HOST_PREFIX l)) = true ∧
    ((readlines "Ports: 80/open/tcp//http///".toList).any
      (fun l => pyIn PORTS_PREFIX l)) = true ∧
    _parse_and_print "Ports: 80/open/tcp//http///".toList "http".toList "scan.gnmap".toList =
      Except.error (noLineMsg "scan.gnmap".toList) ∧
    pyIn HOST_PREFIX (noLineMsg "scan.gnmap".toList) = false :=
  ⟨rfl, rfl, rfl, rfl⟩

/-- Claim C4 amended: if no line of the input contains both markers, the
run terminates fatally — with an error naming the ports marker and the
input path (always the ports marker, regardless of which marker is
actually missing) — before any output record is produced. -/
theorem c4_amended (text service_substr path : List Char)
    (h : (readlines text).filter
      (fun line => pyIn HOST_PREFIX line && pyIn PORTS_PREFIX line) = []) :
    _parse_and_print text service_substr path = Except.error (noLineMsg path) ∧
    pyIn PORTS_PREFIX (noLineMsg path) = true ∧
    pyIn path (noLineMsg path) = true := by
  refine ⟨?_, ?_, ?_⟩
  · simp [_parse_and_print, h]
  · exact (pyIn_iff _ _).mpr ⟨"No line with \x27".toList,
      "\x27 found in input file \x27".toList ++ path ++ "\x27".toList,
      by simp [noLineMsg, List.append_assoc]⟩
  · exact (pyIn_iff _ _).mpr
      ⟨"No line with \x27".toList ++ PORTS_PREFIX ++ "\x27 found in input file \x27".toList,
      "\x27".toList, by simp [noLineMsg, List.append_assoc]⟩

theorem c4_witness :
    ((readlines "hello".toList).filter
      (fun line => pyIn HOST_PREFIX line && pyIn PORTS_PREFIX line) = []) ∧
    (_parse_and_print "hello".toList "x".toList "p".toList =
      Except.error (noLineMsg "p".toList) ∧
    pyIn PORTS_PREFIX (noLineMsg "p".toList) = true ∧
    pyIn "p".toList (noLineMsg "p".toList) = true) :=
  ⟨rfl, c4_amended "hello".toList "x".toList "p".toList rfl⟩

/-- Claim C2: a matched entry whose port field is not a valid integer
makes the conversion step fail with a parse error rather than being
dropped (the error is uncaught in the source, hence propagates), while a
fragment that does not match the pattern at all is silently skipped with
an empty contribution and no error.  (Through the real pattern the port
group is always a digit run — see the unreachability result for C10 — so
the failing conversion is only exercisable at the conversion step.) -/
theorem c2_fail_fast_and_silent_skip :
    (∀ g : MatchGroups, pyInt g.port = none →
      ∃ msg, convertMatch g = Except.error msg) ∧
    (∀ frag : List Char, matchPortInfo frag = none →
      processFragment frag = Except.ok []) := by
  constructor
  · intro g hg
    refine ⟨"invalid literal for int() with base 10: ".toList ++ g.port, ?_⟩
    simp [convertMatch, hg]
  · intro frag hf
    simp [processFragment, hf]

theorem c2_witness :
    pyInt (MatchGroups.mk "x".toList [] [] [] [] [] []).port = none ∧
    (∃ msg, convertMatch (MatchGroups.mk "x".toList [] [] [] [] [] []) =
      Except.error msg) ∧
    matchPortInfo "hello".toList = none ∧
    processFragment "hello".toList = Except.ok [] :=
  ⟨rfl, c2_fail_fast_and_silent_skip.1 _ rfl, rfl,
    c2_fail_fast_and_silent_skip.2 _ rfl⟩

theorem matchPortInfo_port (frag : List Char) (g : MatchGroups)
    (h : matchPortInfo frag = some g) :
    (!g.port.isEmpty && g.port.all Char.isDigit) = true ∧
    pyInt g.port = some (digitsVal g.port) := by
  unfold matchPortInfo at h
  split at h
  · split at h
    · rename_i hcond
      injection h with hg
      subst hg
      exact ⟨hcond, by simp [pyInt, hcond]⟩
    · exact absurd h (by simp)
  · exact absurd h (by simp)

/-- The record built from a successful match (the `int` conversion always
succeeds on the digit-run port group). -/
def recOfGroups (g : MatchGroups) : PortRecord :=
  ⟨digitsVal g.port, g.state, g.protocol, g.service⟩

theorem processFragment_eq (frag : List Char) :
    processFragment frag = Except.ok (((matchPortInfo frag).map recOfGroups).toList) := by
  cases hm : matchPortInfo frag with
  | none => simp [processFragment, hm]
  | some g =>
    have hport := (matchPortInfo_port frag g hm).2
    simp [processFragment, hm, convertMatch, hport, recOfGroups]

theorem processFragments_eq (fs : List (List Char)) :
    processFragments fs =
      Except.ok (fs.filterMap (fun f => (matchPortInfo f).map recOfGroups)) := by
  induction fs with
  | nil => rfl
  | cons f fs ih =>
    cases hm : matchPortInfo f with
    | none => simp [processFragments, processFragment_eq, hm, ih, List.filterMap_cons]
    | some g => simp [processFragments, processFragment_eq, hm, ih, List.filterMap_cons]

/-- Claim C10: whenever a fragment matches the pattern, the port capture
group is a non-empty run of decimal digits, the `int` conversion succeeds
on it, and consequently the extractor never fails on any input string:
the integer-conversion failure branch is unreachable. -/
theorem c10_extractor_never_raises :
    (∀ (frag : List Char) (g : MatchGroups), matchPortInfo frag = some g →
      (!g.port.isEmpty && g.port.all Char.isDigit) = true ∧
      pyInt g.port = some (digitsVal g.port)) ∧
    (∀ line : List Char, ∃ l, _get_ports_info line = Except.ok l) :=
  ⟨matchPortInfo_port, fun line =>
    ⟨(fragmentsOfLine line).filterMap (fun f => (matchPortInfo f).map recOfGroups),
      processFragments_eq _⟩⟩

theorem c10_witness :
    matchPortInfo "80/a/b/c/d/e/f/".toList =
      some ⟨"80".toList, "a".toList, "b".toList, "c".toList, "d".toList,
        "e".toList, "f".toList⟩ ∧
    ((!("80".toList : List Char).isEmpty && ("80".toList : List Char).all Char.isDigit) = true ∧
      pyInt "80".toList = some (digitsVal "80".toList)) ∧
    (∃ l, _get_ports_info "Ports: 80/open/tcp//http///".toList = Except.ok l) :=
  ⟨rfl, c10_extractor_never_raises.1 "80/a/b/c/d/e/f/".toList
    ⟨"80".toList, "a".toList, "b".toList, "c".toList, "d".toList,
      "e".toList, "f".toList⟩ rfl,
    c10_extractor_never_raises.2 "Ports: 80/open/tcp//http///".toList⟩

theorem length_filterMap_match (l : List (List Char)) :
    (l.filterMap (fun f => (matchPortInfo f).map recOfGroups)).length =
      (l.filter (fun f => (matchPortInfo f).isSome)).length := by
  induction l with
  | nil => rfl
  | cons f fs ih =>
    cases hm : matchPortInfo f with
    | none => simp [List.filterMap_cons, List.filter_cons, hm, ih]
    | some g => simp [List.filterMap_cons, List.filter_cons, hm, ih]

/-- Claim C6: on every input line the extractor succeeds with exactly the
records of the pattern-matching fragments (taken from the tab-delimited
segments that start with the ports prefix), in left-to-right order of the
fragments, and the record count equals the number of matching
fragments. -/
theorem c6_one_record_per_matching_fragment (line : List Char) :
    _get_ports_info line =
      Except.ok ((fragmentsOfLine line).filterMap
        (fun f => (matchPortInfo f).map recOfGroups)) ∧
    ((fragmentsOfLine line).filterMap
        (fun f => (matchPortInfo f).map recOfGroups)).length =
      ((fragmentsOfLine line).filter (fun f => (matchPortInfo f).isSome)).length :=
  ⟨processFragments_eq _, length_filterMap_match _⟩

theorem updateEntry_sum (substr : List Char) (m : List (List Char × List Nat))
    (s : List Char) (p : Nat) :
    ((updateEntry m s p).map (fun e => if pyIn substr e.1 then e.2.length else 0)).sum =
      (m.map (fun e => if pyIn substr e.1 then e.2.length else 0)).sum +
        (if pyIn substr s then 1 else 0) := by
  induction m with
  | nil => simp [updateEntry]
  | cons e m ih =>
    obtain ⟨k, ps⟩ := e
    by_cases hk : k = s
    · subst hk
      by_cases hp : pyIn substr k = true
      · simp [updateEntry, hp]
        omega
      · simp [updateEntry, hp]
    · simp only [updateEntry, if_neg hk, List.map_cons, List.sum_cons, ih]
      omega

theorem buildmap_sum (substr : List Char) (pi : List PortRecord) :
    ∀ m0 : List (List Char × List Nat),
    ((pi.foldl (fun m r => updateEntry m r.service r.port) m0).map
        (fun e => if pyIn substr e.1 then e.2.length else 0)).sum =
      (m0.map (fun e => if pyIn substr e.1 then e.2.length else 0)).sum +
        pi.countP (fun r => pyIn substr r.service) := by
  induction pi with
  | nil => intro m0; simp
  | cons r pi ih =>
    intro m0
    simp only [List.foldl_cons, List.countP_cons]
    rw [ih, updateEntry_sum]
    omega

theorem gpfss_length (substr : List Char) (m : List (List Char × List Nat)) :
    (_get_ports_for_service_substr substr m).length =
      (m.map (fun e => if pyIn substr e.1 then e.2.length else 0)).sum := by
  unfold _get_ports_for_service_substr
  rw [gpfss_foldl]
  simp only [List.nil_append]
  induction m with
  | nil => rfl
  | cons e m ih =>
    by_cases hp : pyIn substr e.1 = true
    · simp [hp, ih]
    · simp [hp, ih]

/-- Claim C5: for a selected host line whose extracted port records are
`pi`, the number of formatted output records equals the number of
extracted records whose service name contains the requested substring. -/
theorem c5_output_count_invariant (service_substr host line : List Char)
    (pi : List PortRecord) (hpi : _get_ports_info line = Except.ok pi) :
    (_build_output host
        (_get_ports_for_service_substr service_substr (_build_service_map pi))).length =
      (pi.filter (fun r => pyIn service_substr r.service)).length := by
  unfold _build_output
  rw [List.length_map, gpfss_length]
  unfold _build_service_map
  rw [buildmap_sum]
  simp [List.countP_eq_length_filter]

theorem c5_witness :
    _get_ports_info "Ports: 80/open/tcp//http///".toList =
      Except.ok [⟨80, "open".toList, "tcp".toList, "http".toList⟩] ∧
    (_build_output "h".toList
        (_get_ports_for_service_substr "tt".toList
          (_build_service_map [⟨80, "open".toList, "tcp".toList, "http".toList⟩]))).length =
      ([(⟨80, "open".toList, "tcp".toList, "http".toList⟩ : PortRecord)].filter
        (fun r => pyIn "tt".toList r.service)).length :=
  ⟨rfl, c5_output_count_invariant "tt".toList "h".toList
    "Ports: 80/open/tcp//http///".toList
    [⟨80, "open".toList, "tcp".toList, "http".toList⟩] rfl⟩

/-- The condition under which Python strip with the ports-marker character
set agrees with literal removal of the marker on a qualifying segment: the
remainder after the marker is empty, or neither its first nor its last
character belongs to the marker character set. -/
def goodSegment (part : List Char) : Bool :=
  let r := part.drop PORTS_PREFIX.length
  r.isEmpty ||
    (!(PORTS_PREFIX.contains (r.headD ' ')) &&
      !(PORTS_PREFIX.contains (r.reverse.headD ' ')))

theorem dropWhile_append_of_all (p : Char → Bool) (xs ys : List Char)
    (h : xs.all p = true) : (xs ++ ys).dropWhile p = ys.dropWhile p := by
  induction xs with
  | nil => rfl
  | cons x xs ih =>
    simp only [List.all_cons, Bool.and_eq_true] at h
    simp [List.dropWhile_cons, h.1, ih h.2]

theorem pyStrip_eq_drop (part : List Char) (hpre : isPre PORTS_PREFIX part = true)
    (hgood : goodSegment part = true) :
    pyStrip PORTS_PREFIX part = part.drop PORTS_PREFIX.length := by
  obtain ⟨r, hr⟩ := (isPre_iff _ _).mp hpre
  subst hr
  rw [List.drop_left]
  unfold goodSegment at hgood
  rw [List.drop_left] at hgood
  unfold pyStrip
  rw [dropWhile_append_of_all _ _ _ (by decide)]
  cases r with
  | nil => rfl
  | cons c cs =>
    cases hrev : (c :: cs).reverse with
    | nil => exact absurd hrev (by simp)
    | cons d ds =>
      simp only [List.isEmpty_cons, Bool.false_or, Bool.and_eq_true,
        Bool.not_eq_true', List.headD_cons, hrev] at hgood
      have hc : c ∉ PORTS_PREFIX := by simpa using hgood.1
      have hd : d ∉ PORTS_PREFIX := by simpa using hgood.2
      have h1 : List.dropWhile (fun x => PORTS_PREFIX.contains x) (c :: cs) = c :: cs := by
        simp [List.dropWhile_cons, hc]
      have h2 : List.dropWhile (fun x => PORTS_PREFIX.contains x) (d :: ds) = d :: ds := by
        simp [List.dropWhile_cons, hd]
      rw [h1, hrev, h2, ← hrev, List.reverse_reverse]

theorem flatMap_congr_on {α β : Type} {l : List α} {f g : α → List β}
    (h : ∀ x ∈ l, f x = g x) : l.flatMap f = l.flatMap g := by
  induction l with
  | nil => rfl
  | cons a l ih =>
    simp only [List.flatMap_cons]
    rw [h a (List.mem_cons_self a l), ih (fun x hx => h x (List.mem_cons_of_mem a hx))]

/-- Claim C8 is false on the code: on a segment with two spaces after
the colon, strip with the character set also removes the second space and
the fragment matches the pattern, while removal of only the literal
prefix leaves a leading space and the fragment is silently dropped; the
two variants return different lists. -/
theorem c8_counterexample :
    _get_ports_info "Ports:  80/open/tcp//http///".toList =
      Except.ok [⟨80, "open".toList, "tcp".toList, "http".toList⟩] ∧
    _get_ports_info_lit "Ports:  80/open/tcp//http///".toList = Except.ok [] ∧
    ([⟨80, "open".toList, "tcp".toList, "http".toList⟩] : List PortRecord) ≠ [] :=
  ⟨rfl, rfl, by decide⟩

/-- Claim C8 amended: the strip-based extractor agrees with the
literal-prefix variant on every line in which each qualifying segment has
a remainder (after the literal marker) that is empty or neither starts
nor ends with a character of the marker character set
(uppercase P, lowercase o r t s, colon, space). -/
theorem c8_amended (line : List Char)
    (h : (portsSegments line).all goodSegment = true) :
    _get_ports_info line = _get_ports_info_lit line := by
  unfold _get_ports_info _get_ports_info_lit fragmentsOfLine
  congr 1
  apply flatMap_congr_on
  intro part hmem
  have hg : goodSegment part = true := List.all_eq_true.mp h part hmem
  have hpre : isPre PORTS_PREFIX part = true := by
    unfold portsSegments at hmem
    exact List.of_mem_filter hmem
  unfold fragmentsOfSegment fragmentsOfSegmentLit
  rw [pyStrip_eq_drop part hpre hg]

theorem c8_witness :
    ((portsSegments "Host: 1.2.3.4 ()\tPorts: 80/open/tcp//http///, 22/open/tcp//ssh///".toList).all
      goodSegment = true) ∧
    _get_ports_info "Host: 1.2.3.4 ()\tPorts: 80/open/tcp//http///, 22/open/tcp//ssh///".toList =
      _get_ports_info_lit "Host: 1.2.3.4 ()\tPorts: 80/open/tcp//http///, 22/open/tcp//ssh///".toList :=
  ⟨rfl, c8_amended "Host: 1.2.3.4 ()\tPorts: 80/open/tcp//http///, 22/open/tcp//ssh///".toList rfl⟩

theorem splitWsAux_ne_nil_acc (l : List Char) :
    ∀ acc : List Char, acc ≠ [] → splitWsAux l acc ≠ [] := by
  induction l with
  | nil =>
    intro acc h
    cases acc with
    | nil => exact absurd rfl h
    | cons x xs => simp [splitWsAux]
  | cons c cs ih =>
    intro acc h
    by_cases hc : pyIsSpace c = true
    · cases acc with
      | nil => exact absurd rfl h
      | cons x xs => simp [splitWsAux, hc]
    · simp only [splitWsAux, hc]
      simp only [Bool.false_eq_true, if_false]
      exact ih (c :: acc) (List.cons_ne_nil c acc)

theorem splitWsAux_ne_nil (l : List Char) :
    ∀ acc : List Char, (∃ c, c ∈ l ∧ pyIsSpace c = false) → splitWsAux l acc ≠ [] := by
  induction l with
  | nil =>
    intro acc h
    rcases h with ⟨x, hx, _⟩
    exact absurd hx (List.not_mem_nil x)
  | cons c cs ih =>
    intro acc h
    rcases h with ⟨x, hx, hxs⟩
    by_cases hc : pyIsSpace c = true
    · have hxcs : x ∈ cs := by
        rcases List.mem_cons.mp hx with hxc | hxcs
        · exact absurd hc (by rw [hxc] at hxs; simp [hxs])
        · exact hxcs
      cases acc with
      | nil =>
        simp only [splitWsAux, hc, if_true, List.isEmpty_nil]
        exact ih [] ⟨x, hxcs, hxs⟩
      | cons a as => simp [splitWsAux, hc]
    · simp only [splitWsAux, hc]
      simp only [Bool.false_eq_true, if_false]
      exact splitWsAux_ne_nil_acc cs (c :: acc) (List.cons_ne_nil c acc)

theorem splitWsAux_two (l2 : List Char) (hb : ∃ b, b ∈ l2 ∧ pyIsSpace b = false) :
    ∀ (l1 acc : List Char),
      ((∃ a, a ∈ l1 ∧ pyIsSpace a = false) ∨ acc ≠ []) →
      2 ≤ (splitWsAux (l1 ++ ' ' :: l2) acc).length := by
  intro l1
  induction l1 with
  | nil =>
    intro acc h
    have hacc : acc ≠ [] := by
      rcases h with h | h
      · rcases h with ⟨a, ha, _⟩
        exact absurd ha (List.not_mem_nil a)
      · exact h
    cases acc with
    | nil => exact absurd rfl hacc
    | cons x xs =>
      have hne := splitWsAux_ne_nil l2 [] hb
      have hpos : 0 < (splitWsAux l2 []).length := List.length_pos.mpr hne
      simp [splitWsAux, pyIsSpace]
      omega
  | cons c cs ih =>
    intro acc h
    by_cases hc : pyIsSpace c = true
    · cases acc with
      | nil =>
        have hleft : ∃ a, a ∈ c :: cs ∧ pyIsSpace a = false := by
          rcases h with h | h
          · exact h
          · exact absurd rfl h
        rcases hleft with ⟨a, ha, has⟩
        have hacs : a ∈ cs := by
          rcases List.mem_cons.mp ha with hac | hacs
          · exact absurd hc (by rw [hac] at has; simp [has])
          · exact hacs
        simp only [List.cons_append, splitWsAux, hc, if_true, List.isEmpty_nil]
        exact ih [] (Or.inl ⟨a, hacs, has⟩)
      | cons x xs =>
        rcases hb with ⟨b, hbmem, hbs⟩
        have hne := splitWsAux_ne_nil (cs ++ ' ' :: l2) []
          ⟨b, List.mem_append_right cs (List.mem_cons_of_mem ' ' hbmem), hbs⟩
        have hpos : 0 < (splitWsAux (cs ++ ' ' :: l2) []).length := List.length_pos.mpr hne
        simp [splitWsAux, hc]
        omega
    · simp only [List.cons_append, splitWsAux, hc]
      simp only [Bool.false_eq_true, if_false]
      exact ih (c :: acc) (Or.inr (List.cons_ne_nil c acc))

theorem marker_split (l : List Char)
    (hH : ∃ u v, l = u ++ HOST_PREFIX ++ v)
    (hP : ∃ u v, l = u ++ PORTS_PREFIX ++ v) :
    ∃ l1 l2, l = l1 ++ ' ' :: l2 ∧ (∃ a, a ∈ l1 ∧ pyIsSpace a = false) ∧
      (∃ b, b ∈ l2 ∧ pyIsSpace b = false) := by
  obtain ⟨u, v, huv⟩ := hH
  obtain ⟨w, v2, hwv⟩ := hP
  rw [List.append_assoc] at huv hwv
  have hdp : l.drop u.length = HOST_PREFIX ++ v := by
    rw [huv]; exact List.drop_left u _
  have hdq : l.drop w.length = PORTS_PREFIX ++ v2 := by
    rw [hwv]; exact List.drop_left w _
  have hdv : l.drop (u.length + 6) = v := by
    rw [← List.drop_drop, hdp]; exact List.drop_left HOST_PREFIX v
  have hdv2 : l.drop (w.length + 7) = v2 := by
    rw [← List.drop_drop, hdq]; exact List.drop_left PORTS_PREFIX v2
  rcases le_or_lt u.length w.length with hle | hlt
  · rcases le_or_lt (u.length + 6) w.length with h6 | h6
    · refine ⟨u ++ ['H', 'o', 's', 't', ':'], v, ?_, ⟨'H', ?_, by decide⟩, ⟨'P', ?_, by decide⟩⟩
      · rw [huv]; simp [HOST_PREFIX, List.append_assoc]
      · exact List.mem_append_right u (by simp)
      · have hk : List.drop (w.length - (u.length + 6)) v = PORTS_PREFIX ++ v2 := by
          rw [← hdv, List.drop_drop,
            show u.length + 6 + (w.length - (u.length + 6)) = w.length from by omega, hdq]
        have hmem : 'P' ∈ List.drop (w.length - (u.length + 6)) v := by
          rw [hk]; exact List.mem_append_left _ (by simp [PORTS_PREFIX])
        exact List.drop_subset _ _ hmem
    · exfalso
      obtain ⟨d, hd⟩ : ∃ d, w.length - u.length = d := ⟨_, rfl⟩
      have hd5 : d ≤ 5 := by omega
      have key : PORTS_PREFIX ++ v2 = List.drop d HOST_PREFIX ++ v := by
        rw [← hdq, show w.length = u.length + d from by omega, ← List.drop_drop, hdp,
          List.drop_append_of_le_length (by simp [HOST_PREFIX]; omega)]
      interval_cases d <;> (injection key with h1 h2; exact absurd h1 (by decide))
  · rcases le_or_lt (w.length + 7) u.length with h7 | h7
    · refine ⟨w ++ ['P', 'o', 'r', 't', 's', ':'], v2, ?_, ⟨'P', ?_, by decide⟩,
        ⟨'H', ?_, by decide⟩⟩
      · rw [hwv]; simp [PORTS_PREFIX, List.append_assoc]
      · exact List.mem_append_right w (by simp)
      · have hk : List.drop (u.length - (w.length + 7)) v2 = HOST_PREFIX ++ v := by
          rw [← hdv2, List.drop_drop,
            show w.length + 7 + (u.length - (w.length + 7)) = u.length from by omega, hdp]
        have hmem : 'H' ∈ List.drop (u.length - (w.length + 7)) v2 := by
          rw [hk]; exact List.mem_append_left _ (by simp [HOST_PREFIX])
        exact List.drop_subset _ _ hmem
    · exfalso
      obtain ⟨d, hd⟩ : ∃ d, u.length - w.length = d := ⟨_, rfl⟩
      have hd1 : 1 ≤ d := by omega
      have hd6 : d ≤ 6 := by omega
      have key : HOST_PREFIX ++ v = List.drop d PORTS_PREFIX ++ v2 := by
        rw [← hdp, show u.length = w.length + d from by omega, ← List.drop_drop, hdq,
          List.drop_append_of_le_length (by simp [PORTS_PREFIX]; omega)]
      interval_cases d <;> (injection key with h1 h2; exact absurd h1 (by decide))

/-- Claim C9: every line containing both markers as substrings splits
(under whitespace splitting) into at least two tokens, so the host
extractor finds the token at index one and does not fail. -/
theorem c9_get_host_safe (line : List Char)
    (h1 : pyIn HOST_PREFIX line = true) (h2 : pyIn PORTS_PREFIX line = true) :
    2 ≤ (splitWs line).length ∧ ∃ h, _get_host line = some h := by
  obtain ⟨l1, l2, heq, ha, hb⟩ := marker_split line
    (by rcases (pyIn_iff _ _).mp h1 with ⟨s, t, hst⟩; exact ⟨s, t, hst⟩)
    (by rcases (pyIn_iff _ _).mp h2 with ⟨s, t, hst⟩; exact ⟨s, t, hst⟩)
  have hlen : 2 ≤ (splitWs line).length := by
    rw [heq]
    exact splitWsAux_two l2 hb l1 [] (Or.inl ha)
  refine ⟨hlen, ?_⟩
  unfold _get_host
  have hlt : 1 < (splitWs line).length := hlen
  exact ⟨_, List.getElem?_eq_getElem hlt⟩

theorem c9_witness :
    pyIn HOST_PREFIX "Host: 10.0.0.5 () Ports: 80/open/tcp//http///".toList = true ∧
    pyIn PORTS_PREFIX "Host: 10.0.0.5 () Ports: 80/open/tcp//http///".toList = true ∧
    (2 ≤ (splitWs "Host: 10.0.0.5 () Ports: 80/open/tcp//http///".toList).length ∧
      ∃ h, _get_host "Host: 10.0.0.5 () Ports: 80/open/tcp//http///".toList = some h) :=
  ⟨rfl, rfl, c9_get_host_safe "Host: 10.0.0.5 () Ports: 80/open/tcp//http///".toList rfl rfl⟩
